import Mathlib

/-!
Verification development for the SYSTEM_ALPHA backtesting core
(`backend/app/indicators.py`, `backend/app/backtest.py`,
`backend/app/optimizer.py`).

The Python arrays of 64-bit floats are embedded as lists over `ERat`
(`Option ℚ`, with `none` playing the role of IEEE `NaN`: it propagates
through arithmetic and makes every comparison false).  Epoch times are
embedded as `ℤ`, boolean numpy vectors as `List Bool`.  Numpy elementwise
`&` with its 1-D broadcasting rules (which can fail) is embedded as an
`Except`-valued operation, so the condition-combination pipeline can fail
exactly where the numpy code raises `ValueError`.
-/

namespace SystemAlpha

/-- Float values: `some q` is an ordinary value, `none` is `NaN`. -/
abbrev ERat := Option ℚ

/-- `NaN`-propagating addition. -/
def eadd : ERat → ERat → ERat
  | some a, some b => some (a + b)
  | _, _ => none

/-- `NaN`-propagating subtraction. -/
def esub : ERat → ERat → ERat
  | some a, some b => some (a - b)
  | _, _ => none

/-- `NaN`-propagating multiplication. -/
def emul : ERat → ERat → ERat
  | some a, some b => some (a * b)
  | _, _ => none

/-- IEEE-style `<=`: any comparison with `NaN` is false. -/
def ele : ERat → ERat → Bool
  | some a, some b => decide (a ≤ b)
  | _, _ => false

/-- IEEE-style `<`. -/
def elt : ERat → ERat → Bool
  | some a, some b => decide (a < b)
  | _, _ => false

/-- IEEE-style `>=`. -/
def ege : ERat → ERat → Bool
  | some a, some b => decide (b ≤ a)
  | _, _ => false

/-- IEEE-style `>`. -/
def egt : ERat → ERat → Bool
  | some a, some b => decide (b < a)
  | _, _ => false

/-- `np.mean` over a float slice: `NaN` on an empty slice, and `NaN`
propagates from any element. -/
def meanE (l : List ERat) : ERat :=
  if l.isEmpty then none
  else (l.foldl eadd (some 0)).map (fun s => s / (l.length : ℚ))

/-- `np.mean` over a known-clean float slice (used where the source slices
arrays that contain no `NaN`, e.g. gains/losses built from price diffs). -/
def rmean (l : List ℚ) : ℚ := l.sum / (l.length : ℚ)

/-- `np.max` of a (nonempty) slice. -/
def list_max : List ℚ → ℚ
  | [] => 0
  | x :: xs => xs.foldl max x

/-- `np.min` of a (nonempty) slice. -/
def list_min : List ℚ → ℚ
  | [] => 0
  | x :: xs => xs.foldl min x

/-- `np.cumsum`. -/
def cumsum (l : List ℚ) : List ℚ := (List.scanl (fun a b => a + b) 0 l).drop 1

/-- `np.maximum.accumulate`. -/
def running_max : List ℚ → List ℚ
  | [] => []
  | x :: xs => List.scanl max x xs

/-! ### Indicators (`indicators.py`) -/

/-- `_sma_core`: for `i ≥ period - 1`, the mean of `values[i-period+1 : i+1]`;
earlier entries stay `NaN`. -/
def sma_core (values : List ERat) (period : ℕ) : List ERat :=
  (List.range values.length).map (fun i =>
    if period ≤ i + 1 then meanE ((values.drop (i + 1 - period)).take period)
    else none)

/-- `calculate_sma`. -/
def calculate_sma (values : List ERat) (period : ℕ) : List ERat :=
  if values.length < period then List.replicate values.length none
  else sma_core values period

/-- The EMA smoothing factor `2 / (period + 1)`. -/
def ema_mult (period : ℕ) : ℚ := 2 / ((period : ℚ) + 1)

/-- The EMA value at offset `k` past the seed index `period - 1`:
offset `0` is the seed `mean(values[:period])`, and each further step is
`(v[i] - ema[i-1]) * mult + ema[i-1]` with `i = period + k`. -/
def ema_val (values : List ERat) (period : ℕ) : ℕ → ERat
  | 0 => meanE (values.take period)
  | k + 1 =>
    eadd (emul (esub (values.getD (period + k) none) (ema_val values period k))
               (some (ema_mult period)))
         (ema_val values period k)

/-- `calculate_ema` (for `period ≥ 1`, as used by every caller). -/
def calculate_ema (values : List ERat) (period : ℕ) : List ERat :=
  if values.length < period then List.replicate values.length none
  else (List.range values.length).map (fun i =>
    if period ≤ i + 1 then ema_val values period (i + 1 - period) else none)

/-- `calculate_macd`: MACD line, signal line (EMA of the MACD tail starting
at index `slow - 1`, right-aligned with a `NaN` head), histogram. -/
def calculate_macd (close : List ℚ) (fast slow signal : ℕ) :
    List ERat × List ERat × List ERat :=
  let values := close.map some
  let emaFast := calculate_ema values fast
  let emaSlow := calculate_ema values slow
  let macd := List.zipWith esub emaFast emaSlow
  let firstValid := slow - 1
  let signalAligned :=
    if firstValid + signal ≤ macd.length then
      List.replicate firstValid none ++ calculate_ema (macd.drop firstValid) signal
    else List.replicate macd.length none
  let histogram := List.zipWith esub macd signalAligned
  (macd, signalAligned, histogram)

/-- `calculate_stochastic` (for `k_period ≥ 1`): the `%K` line, with the
zero-range sentinel `50`, and `%D = SMA(%K, d_period)`. -/
def calculate_stochastic (high low close : List ℚ) (k_period d_period : ℕ) :
    List ERat × List ERat :=
  let n := close.length
  let k := (List.range n).map (fun i =>
    if n < k_period ∨ i + 1 < k_period then none
    else
      let hh := list_max ((high.drop (i + 1 - k_period)).take k_period)
      let ll := list_min ((low.drop (i + 1 - k_period)).take k_period)
      if hh - ll = 0 then some 50
      else some (100 * (close.getD i 0 - ll) / (hh - ll)))
  (k, calculate_sma k d_period)

/-- The positive price changes feeding the RSI (`gains`). -/
def rsi_gains (values : List ℚ) : List ℚ :=
  (List.zipWith (fun a b => a - b) (values.drop 1) values).map
    (fun d => if 0 < d then d else 0)

/-- The negative price changes feeding the RSI (`losses`). -/
def rsi_losses (values : List ℚ) : List ℚ :=
  (List.zipWith (fun a b => a - b) (values.drop 1) values).map
    (fun d => if d < 0 then -d else 0)

/-- Wilder smoothing of `_rsi_core`: offset `0` (index `period`) is the seed
`mean(xs[:period])`; each later index `i = period + k + 1` contributes
`(avg * (period - 1) + xs[i-1]) / period`. -/
def wilder_avg (xs : List ℚ) (period : ℕ) : ℕ → ℚ
  | 0 => rmean (xs.take period)
  | k + 1 => (wilder_avg xs period k * ((period : ℚ) - 1) + xs.getD (period + k) 0) / (period : ℚ)

/-- The RSI value `_rsi_core` writes at index `i ≥ period`, with the
`avg_loss = 0` sentinel `100`. -/
def rsi_at (values : List ℚ) (period i : ℕ) : ℚ :=
  let avg_gain := wilder_avg (rsi_gains values) period (i - period)
  let avg_loss := wilder_avg (rsi_losses values) period (i - period)
  if avg_loss = 0 then 100
  else 100 - 100 / (1 + avg_gain / avg_loss)

/-- `calculate_rsi` (for `period ≥ 1`). -/
def calculate_rsi (values : List ℚ) (period : ℕ) : List ERat :=
  if values.length < period + 1 then List.replicate values.length none
  else (List.range values.length).map (fun i =>
    if period ≤ i then some (rsi_at values period i) else none)

/-! ### Data model (`models.py` / the `data` dict of parallel numpy arrays) -/

/-- The primary bar series: six equal-length parallel arrays. -/
structure MarketData where
  time : List ℤ
  «open» : List ℚ
  high : List ℚ
  low : List ℚ
  close : List ℚ
  volume : List ℚ
deriving DecidableEq

/-- `StrategyCondition`: params are scalar-valued options. -/
structure StrategyCondition where
  id : String
  params : List (String × ℚ)
  enabled : Bool := true
  timeframe : Option String := none
deriving DecidableEq

/-- `Strategy`. -/
structure Strategy where
  entryConditions : List StrategyCondition
  exitConditions : List StrategyCondition
deriving DecidableEq

/-- `params.get(key, default)` for scalar params. -/
def paramD (ps : List (String × ℚ)) (key : String) (d : ℚ) : ℚ :=
  match ps.lookup key with
  | some v => v
  | none => d

/-- `params.get(key, default)` for period-like options that the source
interpolates into indicator keys; nonnegative integral values in practice. -/
def natParamD (ps : List (String × ℚ)) (key : String) (d : ℕ) : ℕ :=
  match ps.lookup key with
  | some v => v.num.toNat / v.den
  | none => d

/-- `hour * 100 + minute` of an epoch-seconds timestamp, as
`pd.to_datetime(t, unit='s')` exposes it (UTC; timestamps are nonnegative). -/
def hhmm (t : ℤ) : ℕ := ((t.toNat / 3600) % 24) * 100 + (t.toNat % 3600) / 60

/-! ### Condition evaluation (`BacktestEngine._check_single_condition`) -/

/-- A crosses-above comparison of two float series exactly as the
`macd_cross_above` / `stoch_cross_above` branches build it:
`(a[:-1] <= b[:-1]) & (a[1:] > b[1:])` — an array of length `len - 1`
with no leading padding. -/
def cross_above_raw (a b : List ERat) : List Bool :=
  List.zipWith (fun x y => x && y)
    (List.zipWith ele a.dropLast b.dropLast)
    (List.zipWith egt (a.drop 1) (b.drop 1))

/-- `BacktestEngine._check_single_condition`, embedded for the condition ids
the claims exercise, all on the primary timeframe (for `tf = "DEF"`,
`get_mtf` returns the raw indicator array that `build_smart` computed from
the primary series, which is inlined here).  Every other id falls through
to the final `return np.zeros(self.length, dtype=bool)` of the source, and
so does every id that is not embedded — which is exactly the behavior the
source gives unknown ids such as `stop_loss_ticks` / `take_profit_ticks`. -/
def check_single_condition (data : MarketData) (c : StrategyCondition) : List Bool :=
  let n := data.close.length
  if c.id = "macd_cross_above" then
    let fast := natParamD c.params ("fast") 12
    let slow := natParamD c.params ("slow") 26
    let signal := natParamD c.params ("signal") 9
    let m := calculate_macd data.close fast slow signal
    cross_above_raw m.1 m.2.1
  else if c.id = "stoch_cross_above" then
    let kp := natParamD c.params ("kPeriod") 14
    let dp := natParamD c.params ("dPeriod") 3
    let kd := calculate_stochastic data.high data.low data.close kp dp
    cross_above_raw kd.1 kd.2
  else if c.id = "time_range" then
    let s := paramD c.params ("startTime") (paramD c.params ("start") 830)
    let e := paramD c.params ("endTime") (paramD c.params ("end") 1457)
    data.time.map (fun t => decide (s ≤ (hhmm t : ℚ)) && decide ((hhmm t : ℚ) ≤ e))
  else
    List.replicate n false

/-- Elementwise `&` of two 1-D boolean numpy arrays, with numpy
broadcasting: equal lengths combine pointwise, a length-1 operand
broadcasts, anything else raises `ValueError`. -/
def np_and (a b : List Bool) : Except String (List Bool) :=
  if a.length = b.length then .ok (List.zipWith (fun x y => x && y) a b)
  else if a.length = 1 then .ok (b.map (fun y => a.getD 0 false && y))
  else if b.length = 1 then .ok (a.map (fun x => x && b.getD 0 false))
  else .error ("operands could not be broadcast together")

/-- `BacktestEngine._check_conditions`: the empty list gives all-false;
otherwise start from all-true, skip disabled conditions, and AND in each
enabled condition result. -/
def check_conditions (data : MarketData) (conds : List StrategyCondition) :
    Except String (List Bool) :=
  if conds.isEmpty then .ok (List.replicate data.close.length false)
  else
    conds.foldlM
      (fun acc c =>
        if c.enabled = false then .ok acc
        else np_and acc (check_single_condition data c))
      (List.replicate data.close.length true)

/-! ### Trade simulation (`BacktestEngine._simulate_trades`) -/

/-- One recorded trade. -/
structure Trade where
  entry_idx : ℕ
  exit_idx : ℕ
  entry_price : ℚ
  exit_price : ℚ
  profit : ℚ
  entry_time : ℤ
  exit_time : ℤ
  exit_reason : String
deriving DecidableEq

/-- The loop state of `_simulate_trades`. -/
structure SimState where
  in_trade : Bool
  entry_price : ℚ
  entry_idx : ℕ
  trades : List Trade
deriving DecidableEq

/-- Initial simulator state. -/
def sim_init : SimState := ⟨false, 0, 0, []⟩

/-- One iteration of the `_simulate_trades` loop at bar `i`: enter at the
signal bars close when flat, else close at the bars close on an exit
signal with reason `"Signal"`. -/
def sim_step (data : MarketData) (entries exits : List Bool) (s : SimState) (i : ℕ) :
    SimState :=
  if s.in_trade = false ∧ entries.getD i false = true then
    { s with in_trade := true, entry_price := data.close.getD i 0, entry_idx := i }
  else if s.in_trade = true ∧ exits.getD i false = true then
    let px := data.close.getD i 0
    { in_trade := false, entry_price := s.entry_price, entry_idx := s.entry_idx,
      trades := s.trades ++
        [⟨s.entry_idx, i, s.entry_price, px, px - s.entry_price,
          data.time.getD s.entry_idx 0, data.time.getD i 0, "Signal"⟩] }
  else s

/-- The simulator state after processing bars `0 .. n-1`. -/
def sim_run_upto (data : MarketData) (entries exits : List Bool) (n : ℕ) : SimState :=
  (List.range n).foldl (sim_step data entries exits) sim_init

/-- `_simulate_trades`: run the loop over every bar, then close any open
position at the last bars close with reason `"Session End"`. -/
def simulate_trades (data : MarketData) (entries exits : List Bool) : List Trade :=
  let s := sim_run_upto data entries exits data.close.length
  if s.in_trade then
    s.trades ++
      [⟨s.entry_idx, data.close.length - 1, s.entry_price,
        data.close.getD (data.close.length - 1) 0,
        data.close.getD (data.close.length - 1) 0 - s.entry_price,
        data.time.getD s.entry_idx 0,
        data.time.getD (data.time.length - 1) 0, "Session End"⟩]
  else s.trades

/-! ### Statistics (`BacktestEngine._calculate_statistics`) -/

/-- `BacktestResult`.  The source also carries a `sharpeRatio` float; it is
omitted from the embedding because its nonzero branch needs a real square
root, and every claim-relevant branch (0 or 1 trades) pins it to `0`. -/
structure BacktestResult where
  totalTrades : ℕ
  winningTrades : ℕ
  losingTrades : ℕ
  winRate : ℚ
  totalProfit : ℚ
  maxDrawdown : ℚ
  profitFactor : ℚ
  averageWin : ℚ
  averageLoss : ℚ
  largestWin : ℚ
  largestLoss : ℚ
  trades : List Trade
deriving DecidableEq

/-- The all-zero result returned for an empty trade list. -/
def empty_result : BacktestResult := ⟨0, 0, 0, 0, 0, 0, 0, 0, 0, 0, 0, []⟩

/-- `gross_loss = abs(np.sum(profits[profits < 0]))`. -/
def gross_loss_of (profits : List ℚ) : ℚ := |(profits.filter (fun p => p < 0)).sum|

/-- `gross_profit = np.sum(profits[profits > 0])`. -/
def gross_profit_of (profits : List ℚ) : ℚ := (profits.filter (fun p => 0 < p)).sum

/-- `BacktestEngine._calculate_statistics`. -/
def calculate_statistics (trades : List Trade) : BacktestResult :=
  if trades.isEmpty then empty_result
  else
    let profits := trades.map (fun t => t.profit)
    let total := trades.length
    let wins := profits.filter (fun p => 0 < p)
    let losses := profits.filter (fun p => p < 0)
    let gp := gross_profit_of profits
    let gl := gross_loss_of profits
    let cums := cumsum profits
    let dd := List.zipWith (fun a b => a - b) (running_max cums) cums
    { totalTrades := total
      winningTrades := wins.length
      losingTrades := losses.length
      winRate := ((wins.length : ℚ) / (total : ℚ)) * 100
      totalProfit := profits.sum
      maxDrawdown := if dd.isEmpty then 0 else list_max dd
      profitFactor := if 0 < gl then gp / gl else 0
      averageWin := if wins.isEmpty then 0 else wins.sum / (wins.length : ℚ)
      averageLoss := if losses.isEmpty then 0 else losses.sum / (losses.length : ℚ)
      largestWin := if wins.isEmpty then 0 else list_max wins
      largestLoss := if losses.isEmpty then 0 else list_min losses
      trades := trades }

/-- `BacktestEngine.run`: evaluate both signal vectors, simulate, summarize.
A numpy broadcast failure in either condition pass propagates. -/
def run (data : MarketData) (strategy : Strategy) : Except String BacktestResult :=
  match check_conditions data strategy.entryConditions with
  | .error e => .error e
  | .ok entry_signals =>
    match check_conditions data strategy.exitConditions with
    | .error e => .error e
    | .ok exit_signals =>
      .ok (calculate_statistics (simulate_trades data entry_signals exit_signals))

/-! ### Optimizer (`optimizer.py`) -/

/-- `np.arange(start, stop, step)` for `step > 0`: the values
`start + k * step` for `k < ceil((stop - start) / step)`. -/
def arange (start stop step : ℚ) : List ℚ :=
  (List.range (⌈(stop - start) / step⌉).toNat).map (fun k : ℕ => start + (k : ℚ) * step)

/-- The value list one `{min, max, step}` range materializes:
`np.arange(min_val, max_val + step, step)`. -/
def optimizer_values (min_val max_val step : ℚ) : List ℚ :=
  arange min_val (max_val + step) step

/-- `itertools.product`: Cartesian product with the rightmost factor
varying fastest. -/
def cart_prod : List (List ℚ) → List (List ℚ)
  | [] => [[]]
  | l :: ls => (l.map (fun x => (cart_prod ls).map (fun rest => x :: rest))).flatten

/-- Split a character list at every underscore (Python `split('_')`). -/
def split_us (cs : List Char) : List (List Char) :=
  cs.foldr (fun c acc =>
    if c = '_' then [] :: acc
    else match acc with
      | [] => [[c]]
      | g :: gs => (c :: g) :: gs) [[]]

/-- Re-join character-list fields with underscores. -/
def join_us : List (List Char) → List Char
  | [] => []
  | p :: ps => p ++ (ps.map (fun q => '_' :: q)).flatten

/-- Python `key.split('_', 2)`: at most three fields, the third keeping any
further underscores. -/
def split_max2 (s : String) : List String :=
  match split_us s.data with
  | [] => []
  | [a] => [⟨a⟩]
  | [a, b] => [⟨a⟩, ⟨b⟩]
  | a :: b :: rest => [⟨a⟩, ⟨b⟩, ⟨join_us rest⟩]

/-- Python `int(...)` on a decimal-digit string (`None` models the
`ValueError` that makes `_run_single_backtest` skip the key). -/
def parse_nat (s : String) : Option ℕ :=
  if s.data = [] then none
  else s.data.foldl (fun acc c =>
    match acc with
    | none => none
    | some n => if 48 ≤ c.toNat ∧ c.toNat ≤ 57 then some (n * 10 + (c.toNat - 48)) else none)
    (some 0)

/-- Python dict assignment `params[name] = value`. -/
def set_param (ps : List (String × ℚ)) (key : String) (v : ℚ) : List (String × ℚ) :=
  if ps.any (fun p => p.1 = key) then ps.map (fun p => if p.1 = key then (key, v) else p)
  else ps ++ [(key, v)]

/-- Overwrite one param of the condition at `idx` (callers check the bound). -/
def update_cond_param (conds : List StrategyCondition) (idx : ℕ) (key : String) (v : ℚ) :
    List StrategyCondition :=
  match conds.get? idx with
  | some c => conds.set idx { c with params := set_param c.params key v }
  | none => conds

/-- Apply one `entry_<i>_<name>` / `exit_<i>_<name>` override from a
parameter combination; unparseable keys are skipped silently. -/
def apply_param (strat : Strategy) (key : String) (v : ℚ) : Strategy :=
  match split_max2 key with
  | [side, idxs, pname] =>
    match parse_nat idxs with
    | none => strat
    | some idx =>
      if side = "entry" ∧ idx < strat.entryConditions.length then
        { strat with entryConditions := update_cond_param strat.entryConditions idx pname v }
      else if side = "exit" ∧ idx < strat.exitConditions.length then
        { strat with exitConditions := update_cond_param strat.exitConditions idx pname v }
      else strat
  | _ => strat

/-- `_run_single_backtest`: rebuild the strategy, apply the combination,
run the engine.  There is no exception handling here: any failure inside
`run` propagates to the caller. -/
def run_single_backtest (data : MarketData) (strat : Strategy)
    (combo : List (String × ℚ)) : Except String BacktestResult :=
  run data (combo.foldl (fun st kv => apply_param st kv.1 kv.2) strat)

/-- The coordinator consuming `pool.imap(_run_single_backtest, args_list)`
in submission order: the first worker exception re-raises in the
coordinator, aborting the sweep; otherwise all results are collected. -/
def optimize_combos (data : MarketData) (strat : Strategy) :
    List (List (String × ℚ)) →
    Except String (List (List (String × ℚ) × BacktestResult))
  | [] => .ok []
  | c :: cs =>
    match run_single_backtest data strat c with
    | .error e => .error e
    | .ok r =>
      match optimize_combos data strat cs with
      | .error e => .error e
      | .ok rs => .ok ((c, r) :: rs)

/-- Stable insertion of one sweep result into a list sorted by descending
`totalProfit` (`results.sort(key=..., reverse=True)` is stable). -/
def insert_by_profit (x : List (String × ℚ) × BacktestResult) :
    List (List (String × ℚ) × BacktestResult) →
    List (List (String × ℚ) × BacktestResult)
  | [] => [x]
  | y :: ys =>
    if y.2.totalProfit < x.2.totalProfit then x :: y :: ys
    else y :: insert_by_profit x ys

/-- Sort sweep results by descending `totalProfit`. -/
def sort_by_profit (rs : List (List (String × ℚ) × BacktestResult)) :
    List (List (String × ℚ) × BacktestResult) :=
  rs.foldr insert_by_profit []

/-- `Optimizer.optimize`: materialize each ranges values, take the
Cartesian product in declaration order, run every combination through the
worker function, and sort by descending total profit. -/
def optimize (data : MarketData) (strat : Strategy)
    (ranges : List (String × (ℚ × ℚ × ℚ))) :
    Except String (List (List (String × ℚ) × BacktestResult)) :=
  let names := ranges.map (fun r => r.1)
  let values := ranges.map (fun r => optimizer_values r.2.1 r.2.2.1 r.2.2.2)
  let combos := (cart_prod values).map (fun vs => names.zip vs)
  match optimize_combos data strat combos with
  | .error e => .error e
  | .ok rs => .ok (sort_by_profit rs)

/-! ### Multi-timeframe alignment (`IndicatorBank.get_mtf`,
`_get_close_times`, and the `_align_to_primary` helper) -/

/-- The binary-search loop of `np.searchsorted(a, v, side='right')`:
`lo, hi = 0, n`; while `lo < hi`, probe `mid = (lo + hi) // 2` and keep the
right half when `a[mid] <= v`.  Fuel bounds the iteration count (the
interval shrinks every round, so `n` rounds always suffice). -/
def ssr_go (a : List ℤ) (v : ℤ) : ℕ → ℕ → ℕ → ℕ
  | 0, lo, _ => lo
  | fuel + 1, lo, hi =>
    if lo < hi then
      if v < a.getD ((lo + hi) / 2) 0 then ssr_go a v fuel lo ((lo + hi) / 2)
      else ssr_go a v fuel ((lo + hi) / 2 + 1) hi
    else lo

/-- `np.searchsorted(a, v, side='right')`. -/
def searchsorted_right (a : List ℤ) (v : ℤ) : ℕ := ssr_go a v a.length 0 a.length

/-- `_get_close_times`: each bars close time is the next bars start time;
the last bar closes one (inferred) step after it opens.  The
median-of-diffs step inference is passed in as `step`. -/
def close_times (times : List ℤ) (step : ℤ) : List ℤ :=
  match times.getLast? with
  | none => []
  | some t => times.drop 1 ++ [t + step]

/-- The alignment tail of `get_mtf` for float arrays:
`indices = np.searchsorted(mtf_close, primary_close, side='right') - 1`,
`NaN` where the index is negative, `values[index]` elsewhere. -/
def get_mtf (vals : List ERat) (tf_close primary_close : List ℤ) : List ERat :=
  primary_close.map (fun t =>
    let j : ℤ := (searchsorted_right tf_close t : ℤ) - 1
    if 0 ≤ j then vals.getD j.toNat none else none)

/-- The same alignment for boolean arrays (`_align_to_primary`), whose
fill value is `False` instead of `NaN`. -/
def align_to_primary (vals : List Bool) (tf_close primary_close : List ℤ) : List Bool :=
  primary_close.map (fun t =>
    let j : ℤ := (searchsorted_right tf_close t : ℤ) - 1
    if 0 ≤ j then vals.getD j.toNat false else false)

/-- Sortedness of a close-time vector, as a computable predicate. -/
def sorted_le : List ℤ → Bool
  | [] => true
  | [_] => true
  | a :: b :: t => decide (a ≤ b) && sorted_le (b :: t)

/-- The largest index `j` with `a[j] ≤ t`, written straight from the spec
wording of the alignment rule (spec side of the refinement, not from the
source). -/
def spec_largest_le (a : List ℤ) (t : ℤ) : Option ℕ :=
  (List.range a.length).reverse.find? (fun j => decide (a.getD j 0 ≤ t))

/-- Spec-side projected value at close time `t`: `A_tf[j]` for the largest
`j` with `tf_close_time[j] ≤ t`, else `NaN`. -/
def spec_projected (vals : List ERat) (a : List ℤ) (t : ℤ) : ERat :=
  match spec_largest_le a t with
  | some j => vals.getD j none
  | none => none

/-- Spec-side projected value for boolean arrays (`false` when no
higher-timeframe bar has closed yet). -/
def spec_projected_bool (vals : List Bool) (a : List ℤ) (t : ℤ) : Bool :=
  match spec_largest_le a t with
  | some j => vals.getD j false
  | none => false

end SystemAlpha

deriving instance DecidableEq for Except

namespace SystemAlpha

/-! ### Generic lemmas about the simulator loop -/

/-- Unrolling one bar of the simulation loop. -/
theorem sim_run_upto_succ (data : MarketData) (entries exits : List Bool) (n : ℕ) :
    sim_run_upto data entries exits (n + 1) =
      sim_step data entries exits (sim_run_upto data entries exits n) n := by
  unfold sim_run_upto
  rw [List.range_succ, List.foldl_append]
  rfl

/-- Every trade appended by the loop body carries the reason `"Signal"`. -/
theorem sim_run_upto_reasons (data : MarketData) (entries exits : List Bool) :
    ∀ n t, t ∈ (sim_run_upto data entries exits n).trades → t.exit_reason = "Signal" := by
  intro n
  induction n with
  | zero =>
    intro t ht
    simp [sim_run_upto, sim_init] at ht
  | succ n ih =>
    intro t ht
    rw [sim_run_upto_succ] at ht
    unfold sim_step at ht
    split_ifs at ht
    · exact ih t ht
    · rcases List.mem_append.mp ht with h | h
      · exact ih t h
      · rw [List.mem_singleton.mp h]
    · exact ih t ht

/-! ### Concrete scenario data -/

/-- A three-bar series used to exhibit the simulators entry semantics:
`open = [10, 20, 30]`, `close = [11, 12, 13]`, one-minute bars. -/
def c1_data : MarketData :=
  ⟨[0, 60, 120], [10, 20, 30], [12, 21, 31], [9, 19, 29], [11, 12, 13], [1, 1, 1]⟩

/-- The S2 boundary scenario of the spec: `close = [100, 101, 99]`,
`open = [100, 100, 100]`, `high = [101, 101, 99]`, `low = [99, 99, 98]`,
times 09:30/09:31/09:32 UTC so that a `time_range` entry condition matches
bar 0 only. -/
def s2_data : MarketData :=
  ⟨[34200, 34260, 34320], [100, 100, 100], [101, 101, 99], [99, 99, 98],
   [100, 101, 99], [1, 1, 1]⟩

/-- The S2 strategy: `time_range` entry on bar 0 only, and the two SL/TP
pseudo-conditions as exit conditions. -/
def s2_strategy : Strategy :=
  ⟨[⟨"time_range", [("startTime", 930), ("endTime", 930)], true, none⟩],
   [⟨"stop_loss_ticks", [("ticks", 4)], true, none⟩,
    ⟨"take_profit_ticks", [("ticks", 8)], true, none⟩]⟩

/-- A three-bar series (any values; MACD needs 26 bars, so every MACD value
here is `NaN`) used to exhibit the cross-condition length bug. -/
def macd_bars3 : MarketData :=
  ⟨[0, 60, 120], [1, 1, 1], [1, 2, 3], [1, 1, 1], [1, 2, 3], [1, 1, 1]⟩

/-- An enabled `macd_cross_above` condition with default params. -/
def macd_cond : StrategyCondition := ⟨"macd_cross_above", [], true, none⟩

/-- An enabled `stoch_cross_above` condition with default params. -/
def stoch_cond : StrategyCondition := ⟨"stoch_cross_above", [], true, none⟩

/-! ### C1 -/

/-- Claim C1 (counterexample): with `entry_signals = [T,F,F]` and
`exit_signals = [F,T,F]` on `c1_data`, the engine is flat at bar 0 with an
entry signal and `1 < N`, yet the recorded trade has `entry_idx = 0` and
`entry_price = close[0] = 11`, not `entry_idx = 1` and
`entry_price = open[1] = 20` as the claim requires. -/
theorem c1_counterexample :
    simulate_trades c1_data [true, false, false] [false, true, false] =
      [⟨0, 1, 11, 12, 12 - 11, 0, 60, "Signal"⟩]
    ∧ ¬ (∃ t ∈ simulate_trades c1_data [true, false, false] [false, true, false],
          t.entry_idx = 1 ∧ t.entry_price = c1_data.«open».getD 1 0) := by
  refine ⟨rfl, ?_⟩
  decide

/-- Claim C1 (amended): when the engine is flat before bar `i` and
`entry_signals[i]` is true, it enters on bar `i` itself: the position state
after bar `i` records `entry_idx = i` and `entry_price = close[i]` (the
signal bars close, not the next bars open; no `i + 1 < N` condition is
involved). -/
theorem c1_entry_at_signal_close (data : MarketData) (entries exits : List Bool) (i : ℕ)
    (hflat : (sim_run_upto data entries exits i).in_trade = false)
    (hsig : entries.getD i false = true) :
    sim_run_upto data entries exits (i + 1) =
      { sim_run_upto data entries exits i with
          in_trade := true, entry_price := data.close.getD i 0, entry_idx := i } := by
  rw [sim_run_upto_succ]
  unfold sim_step
  rw [if_pos ⟨hflat, hsig⟩]

/-- Witness for `c1_entry_at_signal_close` at `c1_data`, bar 0. -/
theorem c1_witness :
    sim_run_upto c1_data [true, false, false] [false, true, false] (0 + 1) =
      { sim_run_upto c1_data [true, false, false] [false, true, false] 0 with
          in_trade := true, entry_price := c1_data.close.getD 0 0, entry_idx := 0 } :=
  c1_entry_at_signal_close c1_data [true, false, false] [false, true, false] 0
    (by decide) (by decide)

/-! ### C2 -/

/-- Claim C2 (counterexample): in the S2 scenario the single trade exits
with reason `"Session End"`, not `"Stop Loss"` — the simulator performs no
intrabar stop check at all. -/
theorem c2_counterexample :
    (run s2_data s2_strategy).map (fun r => r.trades.map (fun t => t.exit_reason)) =
      .ok ["Session End"]
    ∧ "Session End" ≠ "Stop Loss" := by
  refine ⟨by decide, by decide⟩

/-- Claim C2 (amended): the simulator has no stop-loss handling: every
trade it emits exits with reason `"Signal"` or `"Session End"`; the
`stop_loss_ticks` / `take_profit_ticks` ids are unknown to the condition
dispatcher and yield all-false exit vectors, so the S2 scenario produces
exactly one trade entering at bar 0 (price `close[0] = 100`), closed at
session end on bar 2 at `close[2] = 99` with profit `-1.0`. -/
theorem c2_no_intrabar_stop :
    (∀ (data : MarketData) (entries exits : List Bool) (t : Trade),
        t ∈ simulate_trades data entries exits →
        t.exit_reason = "Signal" ∨ t.exit_reason = "Session End")
    ∧ (run s2_data s2_strategy).map (fun r => r.totalTrades) = .ok 1
    ∧ (run s2_data s2_strategy).map
        (fun r => r.trades.map (fun t => (t.entry_idx, t.exit_idx))) = .ok [(0, 2)]
    ∧ (run s2_data s2_strategy).map
        (fun r => r.trades.map (fun t => (t.entry_price, t.exit_price))) = .ok [(100, 99)]
    ∧ (run s2_data s2_strategy).map
        (fun r => r.trades.map (fun t => t.exit_reason)) = .ok ["Session End"]
    ∧ (run s2_data s2_strategy).map (fun r => r.totalProfit) = .ok (-1) := by
  refine ⟨?_, by decide, by decide, by decide, by decide, ?_⟩
  · intro data entries exits t ht
    simp only [simulate_trades] at ht
    split at ht
    · rcases List.mem_append.mp ht with h | h
      · exact Or.inl (sim_run_upto_reasons data entries exits _ t h)
      · exact Or.inr (by rw [List.mem_singleton.mp h])
    · exact Or.inl (sim_run_upto_reasons data entries exits _ t ht)
  · have h : run s2_data s2_strategy =
        .ok (calculate_statistics [⟨0, 2, 100, 99, 99 - 100, 34200, 34320, "Session End"⟩]) := by
      rfl
    rw [h]
    norm_num [calculate_statistics, Except.map]

/-- Witness for `c2_no_intrabar_stop`: its universally quantified part,
applied to the S2 trade. -/
theorem c2_witness :
    (⟨0, 2, 100, 99, 99 - 100, 34200, 34320, "Session End"⟩ : Trade).exit_reason = "Signal"
    ∨ (⟨0, 2, 100, 99, 99 - 100, 34200, 34320, "Session End"⟩ : Trade).exit_reason = "Session End" :=
  c2_no_intrabar_stop.1 s2_data [true, false, false] [false, false, false] _
    (by rw [show simulate_trades s2_data [true, false, false] [false, false, false] =
          [⟨0, 2, 100, 99, 99 - 100, 34200, 34320, "Session End"⟩] from rfl]
        exact List.mem_singleton.mpr rfl)

/-! ### C3 -/

/-- Claim C3 (code bug): cross conditions are supposed to produce length-`N`
vectors with a false leading element, but the `macd_cross_above` and
`stoch_cross_above` branches of `_check_single_condition` return
`(a[:-1] <= b[:-1]) & (a[1:] > b[1:])` of length `N - 1` with no leading
pad; on a 3-bar series both produce length 2, and `_check_conditions`
then fails broadcasting `(3,) & (2,)`.  (The sibling handler module
`conditions.py` pads the MACD cross with a leading `False`, confirming the
intended length-`N` contract.) -/
theorem c3_cross_length_mismatch :
    (∀ a b : List ERat, (cross_above_raw a b).length = min (a.length - 1) (b.length - 1))
    ∧ macd_bars3.close.length = 3
    ∧ (check_single_condition macd_bars3 macd_cond).length = 2
    ∧ (check_single_condition macd_bars3 stoch_cond).length = 2
    ∧ check_conditions macd_bars3 [macd_cond] =
        .error ("operands could not be broadcast together")
    ∧ check_conditions macd_bars3 [stoch_cond] =
        .error ("operands could not be broadcast together") := by
  refine ⟨?_, by decide, by decide, by decide, by decide, by decide⟩
  intro a b
  simp [cross_above_raw, List.length_zipWith, List.length_dropLast, List.length_drop]

/-! ### C4 -/

/-- The strategy of the failing sweep: one enabled `macd_cross_above` entry
condition (whose evaluation on a 3-bar series raises the broadcast error). -/
def c4_strategy : Strategy := ⟨[macd_cond], []⟩

/-- Claim C4 (counterexample): a sweep over `macd_bars3` with the single
range `entry_0_fast : {min 12, max 12, step 1}` dispatches one combination
whose backtest raises; the exception is not trapped and not recorded as a
zero-result — the whole sweep aborts with the error. -/
theorem c4_counterexample :
    optimize macd_bars3 c4_strategy [("entry_0_fast", (12, 12, 1))] =
      .error ("operands could not be broadcast together")
    ∧ run_single_backtest macd_bars3 c4_strategy [("entry_0_fast", 12)] =
      .error ("operands could not be broadcast together") := by
  constructor
  · have hvals : optimizer_values 12 12 1 = [12] := by
      unfold optimizer_values arange
      rw [show ((12:ℚ) + 1 - 12) / 1 = 1 by norm_num]
      norm_num [List.range_succ]
    unfold optimize
    simp only [List.map_cons, List.map_nil, hvals]
    decide
  · decide

/-- Claim C4 (amended): worker exceptions are not trapped: if the `k`-th
combination's backtest raises (and the earlier ones do not), the whole
sweep aborts with that error — no zero-result is recorded and no later
combination runs. -/
theorem c4_exception_aborts_sweep (data : MarketData) (strat : Strategy)
    (combos : List (List (String × ℚ))) (k : ℕ) (e : String)
    (hk : k < combos.length)
    (herr : run_single_backtest data strat (combos.getD k []) = .error e)
    (hok : ∀ j, j < k → ∃ r, run_single_backtest data strat (combos.getD j []) = .ok r) :
    optimize_combos data strat combos = .error e := by
  induction combos generalizing k with
  | nil => exact absurd hk (by simp)
  | cons c cs ih =>
    cases k with
    | zero =>
      simp only [List.getD_cons_zero] at herr
      simp only [optimize_combos, herr]
    | succ k =>
      obtain ⟨r, hr⟩ := hok 0 (Nat.succ_pos k)
      simp only [List.getD_cons_zero] at hr
      simp only [optimize_combos, hr]
      rw [ih k (by simpa using hk) (by simpa using herr)
        (fun j hj => by simpa using hok (j + 1) (by omega))]

/-- Witness for `c4_exception_aborts_sweep` at the concrete failing sweep. -/
theorem c4_witness :
    optimize_combos macd_bars3 c4_strategy [[("entry_0_fast", 12)]] =
      .error ("operands could not be broadcast together") :=
  c4_exception_aborts_sweep macd_bars3 c4_strategy [[("entry_0_fast", 12)]] 0
    ("operands could not be broadcast together")
    (by decide) (by decide) (fun j hj => absurd hj (Nat.not_lt_zero j))

/-! ### C6 -/

/-- Claim C6 (counterexample): the range `{min 0, max 5, step 2}`
materializes `[0, 2, 4, 6]` — the value 6 exceeds max, so the enumeration
is not truncated at max when `(max - min)` is not divisible by `step`. -/
theorem c6_counterexample :
    optimizer_values 0 5 2 = [0, 2, 4, 6]
    ∧ (6 : ℚ) ∈ optimizer_values 0 5 2
    ∧ ¬ ((6 : ℚ) ≤ 5) := by
  have hv : optimizer_values 0 5 2 = [0, 2, 4, 6] := by
    unfold optimizer_values arange
    rw [show ((5:ℚ) + 2 - 0) / 2 = 7 / 2 by norm_num,
        show ⌈(7 / 2 : ℚ)⌉ = 4 by rw [Int.ceil_eq_iff]; norm_num,
        show ((4:ℤ)).toNat = 4 from rfl,
        show List.range 4 = [0, 1, 2, 3] from rfl]
    norm_num [List.map]
  refine ⟨hv, by rw [hv]; decide, by norm_num⟩

/-- Claim C6 (amended): when `(max - min)` is divisible by `step > 0`
(say `max - min = k * step`), the materialized list is exactly
`min, min + step, …, min + k*step`; every value is `≤ max` and `max`
itself is the last value.  (When the divisibility fails, `np.arange(min,
max + step, step)` additionally emits one value beyond `max`, as the
counterexample shows.) -/
theorem c6_enumeration_divisible (min_val max_val step : ℚ) (k : ℕ)
    (hstep : 0 < step) (hdiv : max_val - min_val = (k : ℚ) * step) :
    optimizer_values min_val max_val step =
      (List.range (k + 1)).map (fun j : ℕ => min_val + (j : ℚ) * step)
    ∧ (∀ v ∈ optimizer_values min_val max_val step, v ≤ max_val)
    ∧ max_val ∈ optimizer_values min_val max_val step := by
  have hmax : max_val = min_val + (k : ℚ) * step := by linarith
  have hq : (max_val + step - min_val) / step = ((k : ℚ) + 1) := by
    rw [hmax]
    field_simp
    ring
  have hceil : ⌈(max_val + step - min_val) / step⌉ = (k : ℤ) + 1 := by
    rw [hq]
    exact_mod_cast Int.ceil_intCast ((k : ℤ) + 1)
  have hlist : optimizer_values min_val max_val step =
      (List.range (k + 1)).map (fun j : ℕ => min_val + (j : ℚ) * step) := by
    unfold optimizer_values arange
    rw [hceil, show ((k : ℤ) + 1).toNat = k + 1 by omega]
  refine ⟨hlist, ?_, ?_⟩
  · intro v hv
    rw [hlist] at hv
    obtain ⟨j, hj, rfl⟩ := List.mem_map.mp hv
    rw [List.mem_range] at hj
    have hjk : (j : ℚ) ≤ (k : ℚ) := by exact_mod_cast Nat.lt_succ_iff.mp hj
    rw [hmax]
    have := mul_le_mul_of_nonneg_right hjk (le_of_lt hstep)
    linarith
  · rw [hlist, hmax]
    exact List.mem_map.mpr ⟨k, List.mem_range.mpr (Nat.lt_succ_self k), rfl⟩

/-- Witness for `c6_enumeration_divisible` at `{min 0, max 4, step 2}`. -/
theorem c6_witness :
    optimizer_values 0 4 2 = (List.range (2 + 1)).map (fun j : ℕ => 0 + (j : ℚ) * 2)
    ∧ (∀ v ∈ optimizer_values 0 4 2, v ≤ 4)
    ∧ (4 : ℚ) ∈ optimizer_values 0 4 2 :=
  c6_enumeration_divisible 0 4 2 2 (by norm_num) (by norm_num)

/-! ### More generic list/simulator lemmas -/

/-- `getD` of a replicated list whose default equals the element. -/
theorem getD_replicate_self {α : Type} (a : α) :
    ∀ (m i : ℕ), (List.replicate m a).getD i a = a := by
  intro m
  induction m with
  | zero => intro i; rfl
  | succ m ih =>
    intro i
    cases i with
    | zero => rfl
    | succ i => exact ih i

/-- `getD` of a replicated list at an in-range index. -/
theorem getD_replicate_lt {α : Type} (a d : α) :
    ∀ (m i : ℕ), i < m → (List.replicate m a).getD i d = a := by
  intro m
  induction m with
  | zero => intro i h; exact absurd h (Nat.not_lt_zero i)
  | succ m ih =>
    intro i h
    cases i with
    | zero => rfl
    | succ i => exact ih i (by omega)

/-- With entry signals that read `false` everywhere, the simulator loop
never leaves its initial state. -/
theorem sim_run_upto_no_entries (data : MarketData) (entries exits : List Bool)
    (h : ∀ i, entries.getD i false = false) :
    ∀ n, sim_run_upto data entries exits n = sim_init := by
  intro n
  induction n with
  | zero => rfl
  | succ n ih =>
    rw [sim_run_upto_succ, ih]
    unfold sim_step
    have h2 := h n
    rw [List.getD_eq_getElem?_getD] at h2
    simp [sim_init, h2]

/-- Element access of a mapped `List.range`. -/
theorem getD_range_map {α : Type} (f : ℕ → α) (n i : ℕ) (d : α) (h : i < n) :
    ((List.range n).map f).getD i d = f i := by
  rw [List.getD_eq_getElem?_getD, List.getElem?_map, List.getElem?_range h]
  rfl

/-! ### C7 -/

/-- Claim C7: an empty condition list evaluates to the all-false vector of
length `N`; an all-false entry vector yields no trades at all; and a
backtest with an empty entry-condition list (and any exit conditions whose
evaluation succeeds) returns the all-zero result. -/
theorem c7_empty_entry_zero_trades (data : MarketData) (es : List StrategyCondition)
    (esv : List Bool) (hes : check_conditions data es = .ok esv) :
    check_conditions data [] = .ok (List.replicate data.close.length false)
    ∧ simulate_trades data (List.replicate data.close.length false) esv = []
    ∧ run data ⟨[], es⟩ = .ok empty_result := by
  have hsim : ∀ exits, simulate_trades data (List.replicate data.close.length false) exits = [] := by
    intro exits
    unfold simulate_trades
    rw [sim_run_upto_no_entries data _ exits (fun i => getD_replicate_self false _ i)]
    rfl
  have hempty : check_conditions data [] = .ok (List.replicate data.close.length false) := rfl
  refine ⟨hempty, hsim esv, ?_⟩
  unfold run
  simp only [hempty, hes, hsim esv]
  rfl

/-- Witness for `c7_empty_entry_zero_trades` on the three-bar `c1_data`
with an empty exit-condition list. -/
theorem c7_witness :
    check_conditions c1_data [] = .ok (List.replicate c1_data.close.length false)
    ∧ simulate_trades c1_data (List.replicate c1_data.close.length false)
        (List.replicate 3 false) = []
    ∧ run c1_data ⟨[], []⟩ = .ok empty_result :=
  c7_empty_entry_zero_trades c1_data [] (List.replicate 3 false) (by rfl)

/-! ### C8 -/

/-- Claim C8: the three division-by-zero sentinels.  A stochastic `%K`
window with zero range yields `50`; a zero Wilder average loss yields RSI
`100`; a zero gross loss yields profit factor `0` (and none of these
aborts). -/
theorem c8_division_sentinels :
    (∀ (high low close : List ℚ) (kp dp i : ℕ),
        kp ≤ close.length → kp ≤ i + 1 → i < close.length →
        list_max ((high.drop (i + 1 - kp)).take kp) -
          list_min ((low.drop (i + 1 - kp)).take kp) = 0 →
        (calculate_stochastic high low close kp dp).1.getD i none = some 50)
    ∧ (∀ (values : List ℚ) (p i : ℕ),
        p + 1 ≤ values.length → p ≤ i → i < values.length →
        wilder_avg (rsi_losses values) p (i - p) = 0 →
        (calculate_rsi values p).getD i none = some 100)
    ∧ (∀ trades : List Trade,
        gross_loss_of (trades.map (fun t => t.profit)) = 0 →
        (calculate_statistics trades).profitFactor = 0) := by
  refine ⟨?_, ?_, ?_⟩
  · intro high low close kp dp i hn hki hi hzero
    unfold calculate_stochastic
    simp only
    rw [getD_range_map _ _ _ _ hi, if_neg (by omega), if_pos hzero]
  · intro values p i hlen hpi hi hzero
    unfold calculate_rsi
    rw [if_neg (by omega), getD_range_map _ _ _ _ hi, if_pos hpi]
    unfold rsi_at
    simp only
    rw [if_pos hzero]
  · intro trades hzero
    unfold calculate_statistics
    split
    · rfl
    · simp only [hzero, lt_self_iff_false, if_false]

/-- Witness for `c8_division_sentinels`: a flat one-bar stochastic window,
a rising three-bar RSI, and a single winning trade. -/
theorem c8_witness :
    (calculate_stochastic [5] [5] [5] 1 1).1.getD 0 none = some 50
    ∧ (calculate_rsi [1, 2, 3] 1).getD 1 none = some 100
    ∧ (calculate_statistics [⟨0, 0, 1, 2, 1, 0, 0, "Signal"⟩]).profitFactor = 0 :=
  ⟨c8_division_sentinels.1 [5] [5] [5] 1 1 0 (by decide) (by decide) (by decide)
      (by norm_num [list_max, list_min]),
   c8_division_sentinels.2.1 [1, 2, 3] 1 1 (by decide) (by decide) (by decide)
      (by norm_num [wilder_avg, rsi_losses, rmean]),
   c8_division_sentinels.2.2 [⟨0, 0, 1, 2, 1, 0, 0, "Signal"⟩]
      (by norm_num [gross_loss_of, List.filter])⟩

/-! ### C10 -/

/-- The foldlM accumulator of `_check_conditions` is untouched when every
condition is disabled. -/
theorem check_fold_all_disabled (data : MarketData) :
    ∀ (conds : List StrategyCondition) (acc : List Bool),
      (∀ c ∈ conds, c.enabled = false) →
      conds.foldlM
        (fun acc c =>
          if c.enabled = false then Except.ok acc
          else np_and acc (check_single_condition data c)) acc = .ok acc := by
  intro conds
  induction conds with
  | nil => intro acc _; rfl
  | cons c cs ih =>
    intro acc h
    rw [List.foldlM_cons, if_pos (h c (List.mem_cons_self c cs))]
    exact ih acc (fun d hd => h d (List.mem_cons_of_mem c hd))

/-- With all-true entry signals and all-false exit signals, the simulator
enters at bar 0 and stays in the trade for the whole series. -/
theorem sim_run_upto_all_true (data : MarketData) (hN : 0 < data.close.length) :
    ∀ n, 1 ≤ n → n ≤ data.close.length →
      sim_run_upto data (List.replicate data.close.length true)
          (List.replicate data.close.length false) n =
        ⟨true, data.close.getD 0 0, 0, []⟩ := by
  intro n
  induction n with
  | zero => intro h _; exact absurd h (by omega)
  | succ n ih =>
    intro _ hle
    rcases Nat.eq_zero_or_pos n with hn | hn
    · subst hn
      rw [sim_run_upto_succ]
      show sim_step data _ _ sim_init 0 = _
      unfold sim_step
      rw [if_pos ⟨rfl, getD_replicate_lt true false _ 0 hN⟩]
      rfl
    · rw [sim_run_upto_succ, ih hn (by omega)]
      unfold sim_step
      rw [if_neg (by simp), if_neg (by simp [getD_replicate_self])]

/-- The single trade a backtest records when the entry vector is all-true
and the exit vector all-false: enter at bar 0, closed at session end. -/
def first_bar_trade (data : MarketData) : Trade :=
  ⟨0, data.close.length - 1, data.close.getD 0 0,
    data.close.getD (data.close.length - 1) 0,
    data.close.getD (data.close.length - 1) 0 - data.close.getD 0 0,
    data.time.getD 0 0, data.time.getD (data.time.length - 1) 0, "Session End"⟩

/-- Claim C10 (implicit behavior, confirmed): a nonempty condition list in
which every condition is disabled evaluates to the all-true vector (the
AND accumulator starts at all-true and disabled conditions are skipped),
whereas the empty list gives all-false; consequently on a nonempty series
a strategy with all-disabled entry conditions (and no exit conditions)
enters at the very first bar and yields exactly one session-end trade
instead of none. -/
theorem c10_all_disabled_first_bar (data : MarketData) (conds : List StrategyCondition)
    (hne : conds ≠ []) (hdis : ∀ c ∈ conds, c.enabled = false)
    (hN : 0 < data.close.length) :
    check_conditions data conds = .ok (List.replicate data.close.length true)
    ∧ simulate_trades data (List.replicate data.close.length true)
        (List.replicate data.close.length false) = [first_bar_trade data]
    ∧ run data ⟨conds, []⟩ = .ok (calculate_statistics [first_bar_trade data])
    ∧ (calculate_statistics [first_bar_trade data]).totalTrades = 1 := by
  have hcheck : check_conditions data conds = .ok (List.replicate data.close.length true) := by
    unfold check_conditions
    rw [if_neg (by simp [hne])]
    exact check_fold_all_disabled data conds _ hdis
  have hsim : simulate_trades data (List.replicate data.close.length true)
      (List.replicate data.close.length false) = [first_bar_trade data] := by
    unfold simulate_trades
    rw [sim_run_upto_all_true data hN data.close.length hN (le_refl _)]
    rfl
  refine ⟨hcheck, hsim, ?_, ?_⟩
  · unfold run
    simp only [hcheck]
    rw [show check_conditions data (Strategy.mk conds []).exitConditions =
          .ok (List.replicate data.close.length false) from rfl]
    simp only [hsim]
  · unfold calculate_statistics
    rfl

/-- Witness for `c10_all_disabled_first_bar`: one disabled condition on the
three-bar `c1_data`. -/
theorem c10_witness :
    check_conditions c1_data [⟨"rsi_below", [], false, none⟩] =
      .ok (List.replicate c1_data.close.length true)
    ∧ simulate_trades c1_data (List.replicate c1_data.close.length true)
        (List.replicate c1_data.close.length false) = [first_bar_trade c1_data]
    ∧ run c1_data ⟨[⟨"rsi_below", [], false, none⟩], []⟩ =
        .ok (calculate_statistics [first_bar_trade c1_data])
    ∧ (calculate_statistics [first_bar_trade c1_data]).totalTrades = 1 :=
  c10_all_disabled_first_bar c1_data [⟨"rsi_below", [], false, none⟩]
    (by decide) (by decide) (by decide)

/-! ### C9 -/

/-- An element of `getLast?` is an element of the list. -/
theorem mem_of_mem_getLast? {α : Type} {l : List α} {x : α} (h : x ∈ l.getLast?) : x ∈ l := by
  obtain ⟨hne, rfl⟩ := List.mem_getLast?_eq_getLast h
  exact List.getLast_mem hne

/-- The loop invariant of `_simulate_trades`: the trade list is chained
(`exit_idx ≤` next `entry_idx`), each trade closes no earlier than it
opens and strictly before the current bar, and an open position opened
before the current bar, after every recorded exit. -/
theorem sim_invariant (data : MarketData) (entries exits : List Bool) :
    ∀ n,
      List.Chain' (fun a b => a.exit_idx ≤ b.entry_idx)
        (sim_run_upto data entries exits n).trades
      ∧ (∀ t ∈ (sim_run_upto data entries exits n).trades,
          t.entry_idx ≤ t.exit_idx ∧ t.exit_idx < n)
      ∧ ((sim_run_upto data entries exits n).in_trade = true →
          (sim_run_upto data entries exits n).entry_idx < n
          ∧ ∀ t ∈ (sim_run_upto data entries exits n).trades,
              t.exit_idx ≤ (sim_run_upto data entries exits n).entry_idx) := by
  intro n
  induction n with
  | zero =>
    refine ⟨?_, ?_, ?_⟩ <;> simp [sim_run_upto, sim_init]
  | succ n ih =>
    obtain ⟨hchain, hbounds, hin⟩ := ih
    rw [sim_run_upto_succ]
    unfold sim_step
    split_ifs with h1 h2
    · -- entry at bar n
      refine ⟨hchain, fun t ht => ⟨(hbounds t ht).1, by have := (hbounds t ht).2; omega⟩, ?_⟩
      intro _
      exact ⟨Nat.lt_succ_self n, fun t ht => le_of_lt (hbounds t ht).2⟩
    · -- exit at bar n
      obtain ⟨hidx, hle⟩ := hin h2.1
      refine ⟨?_, ?_, ?_⟩
      · refine List.chain'_append.mpr ⟨hchain, List.chain'_singleton _, ?_⟩
        intro x hx y hy
        simp only [List.head?_cons, Option.mem_def, Option.some.injEq] at hy
        subst hy
        exact hle x (mem_of_mem_getLast? hx)
      · intro t ht
        rcases List.mem_append.mp ht with h' | h'
        · exact ⟨(hbounds t h').1, by have := (hbounds t h').2; omega⟩
        · rw [List.mem_singleton.mp h']
          exact ⟨le_of_lt hidx, Nat.lt_succ_self n⟩
      · intro hcontr
        simp at hcontr
    · -- no state change at bar n
      refine ⟨hchain, fun t ht => ⟨(hbounds t ht).1, by have := (hbounds t ht).2; omega⟩, ?_⟩
      intro h
      exact ⟨by have := (hin h).1; omega, (hin h).2⟩

/-- Claim C9 (confirmed): the trade list is chronologically monotonic:
every trade satisfies `entry_idx ≤ exit_idx`, and consecutive trades
satisfy `exit_idx[k] ≤ entry_idx[k+1]`. -/
theorem c9_trade_list_monotonic (data : MarketData) (entries exits : List Bool) :
    (∀ t ∈ simulate_trades data entries exits, t.entry_idx ≤ t.exit_idx)
    ∧ List.Chain' (fun a b => a.exit_idx ≤ b.entry_idx)
        (simulate_trades data entries exits) := by
  obtain ⟨hchain, hbounds, hin⟩ := sim_invariant data entries exits data.close.length
  simp only [simulate_trades]
  split_ifs with h
  · obtain ⟨hidx, hle⟩ := hin h
    constructor
    · intro t ht
      rcases List.mem_append.mp ht with h' | h'
      · exact (hbounds t h').1
      · rw [List.mem_singleton.mp h']
        show (sim_run_upto data entries exits data.close.length).entry_idx ≤
          data.close.length - 1
        omega
    · refine List.chain'_append.mpr ⟨hchain, List.chain'_singleton _, ?_⟩
      intro x hx y hy
      simp only [List.head?_cons, Option.mem_def, Option.some.injEq] at hy
      subst hy
      exact hle x (mem_of_mem_getLast? hx)
  · exact ⟨fun t ht => (hbounds t ht).1, hchain⟩

/-- Witness for `c9_trade_list_monotonic`: apply it to the `c1_data`
scenario, whose trade list is the single trade `(0, 1)`. -/
theorem c9_witness :
    (⟨0, 1, 11, 12, 12 - 11, 0, 60, "Signal"⟩ : Trade).entry_idx ≤
      (⟨0, 1, 11, 12, 12 - 11, 0, 60, "Signal"⟩ : Trade).exit_idx
    ∧ List.Chain' (fun a b => a.exit_idx ≤ b.entry_idx)
        (simulate_trades c1_data [true, false, false] [false, true, false]) :=
  ⟨(c9_trade_list_monotonic c1_data [true, false, false] [false, true, false]).1 _
      (by rw [show simulate_trades c1_data [true, false, false] [false, true, false] =
            [⟨0, 1, 11, 12, 12 - 11, 0, 60, "Signal"⟩] from rfl]
          exact List.mem_singleton.mpr rfl),
   (c9_trade_list_monotonic c1_data [true, false, false] [false, true, false]).2⟩

/-! ### C5 -/

/-- `sorted_le` really is chain-sortedness. -/
theorem sorted_le_chain' : ∀ a : List ℤ, sorted_le a = true → List.Chain' (· ≤ ·) a
  | [], _ => List.chain'_nil
  | [x], _ => List.chain'_singleton x
  | x :: y :: t, h => by
    rw [show sorted_le (x :: y :: t) = (decide (x ≤ y) && sorted_le (y :: t)) from rfl,
        Bool.and_eq_true] at h
    exact List.chain'_cons.mpr ⟨of_decide_eq_true h.1, sorted_le_chain' (y :: t) h.2⟩

/-- Monotone `getD` access of a sorted list. -/
theorem sorted_le_mono {a : List ℤ} (hs : sorted_le a = true) :
    ∀ i j, i ≤ j → j < a.length → a.getD i 0 ≤ a.getD j 0 := by
  have hp : List.Pairwise (· ≤ ·) a :=
    List.chain'_iff_pairwise.mp (sorted_le_chain' a hs)
  intro i j hij hj
  have hi : i < a.length := by omega
  rw [List.getD_eq_getElem a 0 hi, List.getD_eq_getElem a 0 hj]
  rcases Nat.eq_or_lt_of_le hij with rfl | hlt
  · exact le_refl _
  · exact List.pairwise_iff_getElem.mp hp i j hi hj hlt

/-- The binary-search loop meets the `searchsorted` postcondition: it keeps
the invariant that everything left of `lo` is `≤ v` and everything from
`hi` on is `> v`, and lands on the split point. -/
theorem ssr_go_spec (a : List ℤ) (v : ℤ)
    (hmono : ∀ i j, i ≤ j → j < a.length → a.getD i 0 ≤ a.getD j 0) :
    ∀ (fuel lo hi : ℕ), hi ≤ a.length → lo ≤ hi → hi - lo ≤ fuel →
      (∀ j, j < lo → a.getD j 0 ≤ v) →
      (∀ j, hi ≤ j → j < a.length → v < a.getD j 0) →
      lo ≤ ssr_go a v fuel lo hi ∧ ssr_go a v fuel lo hi ≤ hi
      ∧ (∀ j, j < ssr_go a v fuel lo hi → a.getD j 0 ≤ v)
      ∧ (∀ j, ssr_go a v fuel lo hi ≤ j → j < a.length → v < a.getD j 0) := by
  intro fuel
  induction fuel with
  | zero =>
    intro lo hi hhi hlohi hfuel hlow hhigh
    have heq : lo = hi := by omega
    subst heq
    exact ⟨le_refl lo, le_refl lo, hlow, fun j hj hlen => hhigh j hj hlen⟩
  | succ fuel ih =>
    intro lo hi hhi hlohi hfuel hlow hhigh
    simp only [ssr_go]
    by_cases hlt : lo < hi
    · rw [if_pos hlt]
      have hmid1 : lo ≤ (lo + hi) / 2 := by omega
      have hmid2 : (lo + hi) / 2 < hi := by omega
      by_cases hv : v < a.getD ((lo + hi) / 2) 0
      · rw [if_pos hv]
        have h := ih lo ((lo + hi) / 2) (by omega) (by omega) (by omega) hlow
          (fun j hj hjlen => lt_of_lt_of_le hv (hmono ((lo + hi) / 2) j hj hjlen))
        exact ⟨h.1, h.2.1.trans (by omega), h.2.2⟩
      · rw [if_neg hv]
        push_neg at hv
        have h := ih ((lo + hi) / 2 + 1) hi hhi (by omega) (by omega)
          (fun j hj => le_trans (hmono j ((lo + hi) / 2) (by omega) (by omega)) hv)
          hhigh
        exact ⟨le_trans (by omega) h.1, h.2.1, h.2.2⟩
    · rw [if_neg hlt]
      have heq : lo = hi := by omega
      subst heq
      exact ⟨le_refl lo, le_refl lo, hlow, fun j hj hlen => hhigh j hj hlen⟩

/-- Dropping a known-false tail when searching `range n` from the right. -/
theorem find?_range_reverse_ext (p : ℕ → Bool) :
    ∀ n r, r ≤ n → (∀ j, r ≤ j → j < n → p j = false) →
      (List.range n).reverse.find? p = (List.range r).reverse.find? p := by
  intro n
  induction n with
  | zero =>
    intro r hr _
    have : r = 0 := by omega
    subst this
    rfl
  | succ n ih =>
    intro r hr hfail
    rcases Nat.eq_or_lt_of_le hr with heq | hlt
    · subst heq
      rfl
    · rw [List.range_succ, List.reverse_append, List.reverse_singleton,
        List.singleton_append,
        List.find?_cons_of_neg _ (by simp [hfail n (by omega) (by omega)])]
      exact ih r (by omega) (fun j h1 h2 => hfail j h1 (by omega))

/-- Claim C5 (confirmed): for a sorted close-time vector, `get_mtf`
alignment (and its boolean sibling `_align_to_primary`) at every primary
index `i` equals the spec projection: `A_tf[j]` for the largest `j` with
`tf_close_time[j] ≤ primary_close_time[i]`, and `NaN` (respectively
`false`) when no higher-timeframe bar has closed yet; in particular the
aligned value never reads a bar whose close time exceeds the primary
bars close time. -/
theorem c5_mtf_alignment (vals : List ERat) (bvals : List Bool)
    (tf_close primary_close : List ℤ) (i : ℕ)
    (hs : sorted_le tf_close = true) (hi : i < primary_close.length) :
    (get_mtf vals tf_close primary_close).length = primary_close.length
    ∧ (get_mtf vals tf_close primary_close).getD i none =
        spec_projected vals tf_close (primary_close.getD i 0)
    ∧ (align_to_primary bvals tf_close primary_close).getD i false =
        spec_projected_bool bvals tf_close (primary_close.getD i 0) := by
  have hmono := sorted_le_mono hs
  have hspec := ssr_go_spec tf_close (primary_close.getD i 0) hmono
    tf_close.length 0 tf_close.length (le_refl _) (by omega) (by omega)
    (fun j hj => absurd hj (Nat.not_lt_zero j))
    (fun j hj hlen => absurd (lt_of_le_of_lt hj hlen) (lt_irrefl _))
  have hle : searchsorted_right tf_close (primary_close.getD i 0) ≤ tf_close.length :=
    hspec.2.1
  have hlow : ∀ j, j < searchsorted_right tf_close (primary_close.getD i 0) →
      tf_close.getD j 0 ≤ primary_close.getD i 0 := hspec.2.2.1
  have hhigh : ∀ j, searchsorted_right tf_close (primary_close.getD i 0) ≤ j →
      j < tf_close.length → primary_close.getD i 0 < tf_close.getD j 0 := hspec.2.2.2
  have hfind : spec_largest_le tf_close (primary_close.getD i 0) =
      if searchsorted_right tf_close (primary_close.getD i 0) = 0 then none
      else some (searchsorted_right tf_close (primary_close.getD i 0) - 1) := by
    unfold spec_largest_le
    rw [find?_range_reverse_ext _ tf_close.length
          (searchsorted_right tf_close (primary_close.getD i 0)) hle
          (fun j h1 h2 => decide_eq_false (not_le.mpr (hhigh j h1 h2)))]
    rcases Nat.eq_zero_or_pos (searchsorted_right tf_close (primary_close.getD i 0)) with
      h0 | hpos
    · rw [h0]
      rfl
    · obtain ⟨m, hm⟩ : ∃ m, searchsorted_right tf_close (primary_close.getD i 0) = m + 1 :=
        ⟨searchsorted_right tf_close (primary_close.getD i 0) - 1, by omega⟩
      rw [hm, List.range_succ, List.reverse_append, List.reverse_singleton,
        List.singleton_append, if_neg (Nat.succ_ne_zero m), Nat.add_sub_cancel]
      exact List.find?_cons_of_pos _ (decide_eq_true (hlow m (by omega)))
  have hmapE : (get_mtf vals tf_close primary_close).getD i none =
      (if 0 ≤ (searchsorted_right tf_close (primary_close.getD i 0) : ℤ) - 1 then
        vals.getD ((searchsorted_right tf_close (primary_close.getD i 0) : ℤ) - 1).toNat none
      else none) := by
    unfold get_mtf
    rw [List.getD_eq_getElem?_getD, List.getElem?_map, List.getElem?_eq_getElem hi,
        List.getD_eq_getElem _ _ hi]
    rfl
  have hmapB : (align_to_primary bvals tf_close primary_close).getD i false =
      (if 0 ≤ (searchsorted_right tf_close (primary_close.getD i 0) : ℤ) - 1 then
        bvals.getD ((searchsorted_right tf_close (primary_close.getD i 0) : ℤ) - 1).toNat false
      else false) := by
    unfold align_to_primary
    rw [List.getD_eq_getElem?_getD, List.getElem?_map, List.getElem?_eq_getElem hi,
        List.getD_eq_getElem _ _ hi]
    rfl
  refine ⟨by simp [get_mtf], ?_, ?_⟩
  · unfold spec_projected
    rw [hmapE, hfind]
    rcases Nat.eq_zero_or_pos (searchsorted_right tf_close (primary_close.getD i 0)) with
      h0 | hpos
    · rw [h0]
      norm_num
    · have hL : (if 0 ≤ (searchsorted_right tf_close (primary_close.getD i 0) : ℤ) - 1 then
          vals.getD ((searchsorted_right tf_close (primary_close.getD i 0) : ℤ) - 1).toNat none
        else none) =
          vals.getD (searchsorted_right tf_close (primary_close.getD i 0) - 1) none := by
        rw [if_pos (by omega)]
        congr 1
        omega
      rw [hL, if_neg (by omega)]
  · unfold spec_projected_bool
    rw [hmapB, hfind]
    rcases Nat.eq_zero_or_pos (searchsorted_right tf_close (primary_close.getD i 0)) with
      h0 | hpos
    · rw [h0]
      norm_num
    · have hL : (if 0 ≤ (searchsorted_right tf_close (primary_close.getD i 0) : ℤ) - 1 then
          bvals.getD ((searchsorted_right tf_close (primary_close.getD i 0) : ℤ) - 1).toNat false
        else false) =
          bvals.getD (searchsorted_right tf_close (primary_close.getD i 0) - 1) false := by
        rw [if_pos (by omega)]
        congr 1
        omega
      rw [hL, if_neg (by omega)]

/-- Witness for `c5_mtf_alignment`: three higher-timeframe bars closing at
2, 4, 6 projected onto a primary bar closing at 5 (index 2). -/
theorem c5_witness :
    (get_mtf [some 10, some 20, some 30] [2, 4, 6] [1, 3, 5, 7]).length = [1, 3, 5, 7].length
    ∧ (get_mtf [some 10, some 20, some 30] [2, 4, 6] [1, 3, 5, 7]).getD 2 none =
        spec_projected [some 10, some 20, some 30] [2, 4, 6] ([1, 3, 5, 7].getD 2 0)
    ∧ (align_to_primary [true, false, true] [2, 4, 6] [1, 3, 5, 7]).getD 2 false =
        spec_projected_bool [true, false, true] [2, 4, 6] ([1, 3, 5, 7].getD 2 0) :=
  c5_mtf_alignment [some 10, some 20, some 30] [true, false, true] [2, 4, 6] [1, 3, 5, 7] 2
    (by decide) (by decide)

end SystemAlpha
